import Mathlib

/-
Verification of the CX wait-free universal construction (pramalhe/CX).

This file gives a shallow embedding, in Lean 4, of the components of the CX
repository that the checked properties are about:

* StrongTryRIRWLock with its RIStaticPerThread read indicator
  (src/unnamed/part_009);
* the hazard-pointer + ORC reclamation scan HazardPointersCX::retire
  (src/examples/common/HazardPointersCX.hpp);
* the per-thread retire ring CircularArray (src/unnamed/part_010);
* the ticketed mutation log, the constructor, the pool-acquisition and the
  applyRead loop of CXMutationWF (src/unnamed/part_002) and of
  CXMutationWFTimed (src/unnamed/part_000).

Machine integers are modelled as Nat with explicit reductions modulo 2^62
(the seq bit-field) or 2^64 (uint64 fields) where overflow matters.
Straight-line method bodies are modelled either as sequential functions on
the component state (every load sees the current state, every CAS finds the
value it compared against), or, where a claim is about interference, as
functions of the explicit sequence of values the loads and CAS observe.
-/

/-- Modulus of the 62-bit seq bit-field of StrongTryRIRWLock::StructData. -/
def seqMod : Nat := 2 ^ 62

/-- Modulus of a uint64 field. -/
def w64 : Nat := 2 ^ 64

/-- Increment of the seq bit-field: wraps at 62 bits. -/
def nextSeq (s : Nat) : Nat := (s + 1) % seqMod

/-- The four values of the 2-bit state field of StrongTryRIRWLock:
NOLOCK = 0, HLOCK = 1, RLOCK = 2, WLOCK = 3 (src/unnamed/part_009 lines 68-71). -/
inductive LState where
  | NOLOCK
  | HLOCK
  | RLOCK
  | WLOCK
deriving DecidableEq, Repr

/-- The packed word of StrongTryRIRWLock: 62-bit seq plus 2-bit state
(src/unnamed/part_009 lines 73-80). -/
structure StructData where
  seq : Nat
  state : LState
deriving DecidableEq, Repr

/-- RIStaticPerThread slot value NOT_READING (src/unnamed/part_009 line 90). -/
def NOT_READING : Nat := 0

/-- RIStaticPerThread slot value READING (src/unnamed/part_009 line 91). -/
def READING : Nat := 1

/-- The RIStaticPerThread read indicator: one uint64 slot per thread
(cache-line padding elided; slot values live modulo 2^64). -/
structure RIState where
  states : List Nat
deriving DecidableEq, Repr

/-- RIStaticPerThread::arrive: states[tid] := READING (part_009 lines 122-124). -/
def RIState.arrive (ri : RIState) (tid : Nat) : RIState :=
  ⟨ri.states.set tid READING⟩

/-- RIStaticPerThread::depart: states[tid] := NOT_READING (part_009 lines 126-128). -/
def RIState.depart (ri : RIState) (tid : Nat) : RIState :=
  ⟨ri.states.set tid NOT_READING⟩

/-- RIStaticPerThread::isEmpty: all slots NOT_READING (part_009 lines 130-135). -/
def RIState.isEmpty (ri : RIState) : Bool :=
  ri.states.all (fun v => v == NOT_READING)

/-- RIStaticPerThread::abortRollback: CAS every READING slot to READING+1
(part_009 lines 107-113); in an uninterfered run each such CAS succeeds. -/
def RIState.abortRollback (ri : RIState) : RIState :=
  ⟨ri.states.map (fun v => if v == READING then READING + 1 else v)⟩

/-- RIStaticPerThread::rollbackArrive: fetch_add(-1) on the slot, returning
whether the previous value was READING (part_009 lines 118-120); uint64
arithmetic, so the decrement is modulo 2^64. -/
def RIState.rollbackArrive (ri : RIState) (tid : Nat) : Bool × RIState :=
  let old := ri.states.getD tid 0
  (old == READING, ⟨ri.states.set tid ((old + (w64 - 1)) % w64)⟩)

/-- Full state of one StrongTryRIRWLock: read indicator plus packed word. -/
structure LockState where
  ri : RIState
  wstate : StructData
deriving DecidableEq, Repr

/-- A freshly constructed StrongTryRIRWLock for n threads: wstate {0, NOLOCK},
all read-indicator slots NOT_READING (part_009 lines 95-99 and 144). -/
def initLock (n : Nat) : LockState :=
  ⟨⟨List.replicate n NOT_READING⟩, ⟨0, LState.NOLOCK⟩⟩

/-- Result of running one lock method in an uninterfered (sequential)
execution: the boolean result, the post state, and the sequence of changes
the method performed on the packed word, each recorded as
(value the store or successful CAS replaced, value it installed). -/
structure LockRun where
  ok : Bool
  post : LockState
  writes : List (StructData × StructData)
deriving DecidableEq, Repr

/-- StrongTryRIRWLock::exclusiveTryLock (part_009 lines 177-190), run without
interference: every load sees the current state and every CAS finds the value
it compares against.  The tid parameter is unused, as in the source. -/
def exclusiveTryLock (st : LockState) (_tid : Nat) : LockRun :=
  let ws := st.wstate
  if ws.state = LState.WLOCK ∨ ws.state = LState.RLOCK then ⟨false, st, []⟩
  else if !st.ri.isEmpty then ⟨false, st, []⟩
  else if ws.state = LState.HLOCK then
    ⟨true, { st with wstate := ⟨ws.seq, LState.WLOCK⟩ },
      [(ws, ⟨ws.seq, LState.WLOCK⟩)]⟩
  else
    let nxt : StructData := ⟨nextSeq ws.seq, LState.HLOCK⟩
    let st1 : LockState := { st with wstate := nxt }
    if !st1.ri.isEmpty then ⟨false, st1, [(ws, nxt)]⟩
    else ⟨true, { st1 with wstate := ⟨nxt.seq, LState.WLOCK⟩ },
      [(ws, nxt), (nxt, ⟨nxt.seq, LState.WLOCK⟩)]⟩

/-- StrongTryRIRWLock::exclusiveUnlock (part_009 lines 197-202): store RLOCK,
abortRollback, store NOLOCK. -/
def exclusiveUnlock (st : LockState) : LockRun :=
  let ws := st.wstate
  let st1 : LockState := { st with wstate := ⟨ws.seq, LState.RLOCK⟩ }
  let st2 : LockState := { st1 with ri := st1.ri.abortRollback }
  ⟨true, { st2 with wstate := ⟨ws.seq, LState.NOLOCK⟩ },
    [(ws, ⟨ws.seq, LState.RLOCK⟩), (⟨ws.seq, LState.RLOCK⟩, ⟨ws.seq, LState.NOLOCK⟩)]⟩

/-- StrongTryRIRWLock::setReadLock (part_009 lines 204-207): store RLOCK. -/
def setReadLock (st : LockState) : LockRun :=
  let ws := st.wstate
  ⟨true, { st with wstate := ⟨ws.seq, LState.RLOCK⟩ },
    [(ws, ⟨ws.seq, LState.RLOCK⟩)]⟩

/-- StrongTryRIRWLock::setReadUnlock (part_009 lines 209-212): store NOLOCK. -/
def setReadUnlock (st : LockState) : LockRun :=
  let ws := st.wstate
  ⟨true, { st with wstate := ⟨ws.seq, LState.NOLOCK⟩ },
    [(ws, ⟨ws.seq, LState.NOLOCK⟩)]⟩

/-- StrongTryRIRWLock::downgrade (part_009 lines 215-219): store RLOCK, then
abortRollback. -/
def downgrade (st : LockState) : LockRun :=
  let ws := st.wstate
  let st1 : LockState := { st with wstate := ⟨ws.seq, LState.RLOCK⟩ }
  ⟨true, { st1 with ri := st1.ri.abortRollback },
    [(ws, ⟨ws.seq, LState.RLOCK⟩)]⟩

/-- The values a sharedTryLock call observes at each of its loads and at its
CAS, letting concurrent interference be expressed: w1 is the wstate load after
arrive; casHit says whether the HLOCK→NOLOCK CAS found w1 still installed;
w2 is the wstate reload after a failed CAS; slotAtRollback is the value of the
caller's read-indicator slot at the instant rollbackArrive executes (READING,
or READING+1 if a writer's abortRollback intervened). -/
structure SharedObs where
  w1 : StructData
  casHit : Bool
  w2 : StructData
  slotAtRollback : Nat
deriving DecidableEq, Repr

/-- Trace of one sharedTryLock call: its result, whether it arrived on the
read indicator, whether it attempted the HLOCK→NOLOCK CAS, the change a
successful CAS performed on the packed word, whether it executed
rollbackArrive, and the slot value that rollback left. -/
structure SharedRun where
  ok : Bool
  didArrive : Bool
  casTried : Bool
  casWrite : Option (StructData × StructData)
  didRollback : Bool
  slotAfter : Option Nat
deriving DecidableEq, Repr

/-- The return expression of sharedTryLock (part_009 line 165):
ws.state != WLOCK || !ri.rollbackArrive(tid), with short-circuit evaluation,
given the observed ws and the slot value at rollback time. -/
def sharedFinish (ws : StructData) (o : SharedObs) (casTried : Bool) : SharedRun :=
  if ws.state = LState.WLOCK then
    ⟨!(o.slotAtRollback == READING), true, casTried, none, true,
      some ((o.slotAtRollback + (w64 - 1)) % w64)⟩
  else ⟨true, true, casTried, none, false, none⟩

/-- StrongTryRIRWLock::sharedTryLock (part_009 lines 157-166) as a function of
the first wstate load w0 and of the subsequently observed values. -/
def sharedTryLockRun (w0 : StructData) (o : SharedObs) : SharedRun :=
  if w0.state = LState.WLOCK then ⟨false, false, false, none, false, none⟩
  else
    if o.w1.state = LState.HLOCK then
      if o.casHit then
        ⟨true, true, true, some (o.w1, ⟨o.w1.seq, LState.NOLOCK⟩), false, none⟩
      else sharedFinish o.w2 o true
    else sharedFinish o.w1 o false

/-- Observations of an uninterfered sharedTryLock call on lock state st:
both loads see the installed word, the CAS succeeds, and the slot still holds
READING when a rollback would run. -/
def noIntObs (st : LockState) : SharedObs :=
  ⟨st.wstate, true, st.wstate, READING⟩

/-- The five packed-word transitions listed for StrongTryRIRWLock
(part_009 lines 53-59): aspiring writer, writer confirmation, reader capture,
downgrade, full release. -/
def validTransition (a b : StructData) : Prop :=
  (a.state = LState.NOLOCK ∧ b = ⟨nextSeq a.seq, LState.HLOCK⟩) ∨
  (a.state = LState.HLOCK ∧ b = ⟨a.seq, LState.WLOCK⟩) ∨
  (a.state = LState.HLOCK ∧ b = ⟨a.seq, LState.NOLOCK⟩) ∨
  (a.state = LState.WLOCK ∧ b = ⟨a.seq, LState.RLOCK⟩) ∨
  (a.state = LState.RLOCK ∧ b = ⟨a.seq, LState.NOLOCK⟩)

instance (a b : StructData) : Decidable (validTransition a b) := by
  unfold validTransition
  infer_instance

/-- A log node as seen by the reclamation scan: its next pointer (a node id;
the node is tombstoned when next equals its own id) and its ORC refcnt
(a C++ int).  Models the fields of CXMutationWF::Node the scan reads. -/
structure HPNode where
  next : Nat
  refcnt : Int
deriving DecidableEq, Repr

/-- State of HazardPointersCX (src/examples/common/HazardPointersCX.hpp):
the per-thread hazard slots hp[it][ihp] (none = nullptr), the node heap, and
the calling thread's retired list. -/
structure HPState where
  hpSlots : List (List (Option Nat))
  heap : Nat → HPNode
  retiredList : List Nat

/-- The hazard scan of HazardPointersCX::retire (lines 144-152): true when no
thread's hazard slot references p. -/
def noHazard (hpSlots : List (List (Option Nat))) (p : Nat) : Bool :=
  hpSlots.all (fun row => row.all (fun s => s ≠ some p))

/-- The tombstone test of HazardPointersCX::retire (line 143): the node's
next pointer equals the node itself. -/
def tombstoned (heap : Nat → HPNode) (p : Nat) : Bool :=
  (heap p).next == p

/-- The full deletion predicate of HazardPointersCX::retire: tombstoned
(line 143), unprotected by every hazard slot (lines 144-152), and ORC zero
(line 153), in the order the code checks them. -/
def canReclaim (st : HPState) (p : Nat) : Bool :=
  tombstoned st.heap p && noHazard st.hpSlots p && ((st.heap p).refcnt == 0)

/-- The scan loop of HazardPointersCX::retire (lines 141-159).  The C++ loop
walks the vector forward, erasing in place (with the iret-- compensation), so
each element is examined exactly once, in order: the result is the pair of
the elements kept and the elements deleted. -/
def retireScan (st : HPState) : List Nat → List Nat × List Nat
  | [] => ([], [])
  | p :: rest =>
    let kf := retireScan st rest
    if canReclaim st p then (kf.1, p :: kf.2)
    else (p :: kf.1, kf.2)

/-- HazardPointersCX::retire (lines 138-160): push ptr onto the retired list
(line 139; HP_THRESHOLD_R = 0 so the scan below always runs), then scan,
returning the new state and the list of nodes deleted by this call. -/
def HPState.retire (st : HPState) (ptr : Nat) : HPState × List Nat :=
  let kf := retireScan st (st.retiredList ++ [ptr])
  ({ st with retiredList := kf.1 }, kf.2)

/-- CircularArray capacity (src/unnamed/part_010 line 47). -/
def max_size : Nat := 2000

/-- CircularArray soft lower bound (part_010 line 48). -/
def min_size : Nat := 1000

/-- uint64 subtraction a - b modulo 2^64, as performed by
node->ticket.load() - min_size in CircularArray::clean (part_010 line 62). -/
def sub64 (a b : Nat) : Nat := (a % w64 + (w64 - b % w64)) % w64

/-- A log node as seen by the retire ring: its ticket and its next pointer
(a node id). -/
structure CANode where
  ticket : Nat
  next : Nat
deriving DecidableEq, Repr

/-- State of one per-thread CircularArray (part_010) together with the node
heap it reads and writes and the list of nodes it has handed to hp.retire. -/
structure CAState where
  caBegin : Nat
  caSize : Nat
  slots : Nat → Nat
  heap : Nat → CANode
  retired : List Nat

/-- The removal body of one CircularArray::clean iteration (part_010 lines
66-71): self-link the node in slot pos (mNode->next.store(mNode)), hand its
former successor to hp.retire, and decrement size. -/
def cleanStep (st : CAState) (pos : Nat) : CAState :=
  let mId := st.slots pos
  let m := st.heap mId
  { st with
    heap := fun p => if p = mId then { m with next := mId } else st.heap p,
    retired := m.next :: st.retired,
    caSize := st.caSize - 1 }

/-- The loop of CircularArray::clean (part_010 lines 55-72), with arr the
arriving node's ticket and fuel the initialSize snapshot: wrap pos at
max_size, read the slot's node; if its ticket exceeds arr - min_size (uint64
arithmetic) store begin and stop; otherwise perform the removal body and
continue. -/
def cleanLoop (arr : Nat) : Nat → Nat → CAState → CAState
  | 0, _, st => st
  | fuel + 1, pos, st =>
    let pos1 := if pos == max_size then 0 else pos
    if sub64 arr min_size < (st.heap (st.slots pos1)).ticket then
      { st with caBegin := pos1 }
    else cleanLoop arr fuel (pos1 + 1) (cleanStep st pos1)

/-- CircularArray::clean (part_010 lines 55-72): run the loop from begin for
initialSize = size iterations, comparing against the arriving node's ticket. -/
def CAState.clean (st : CAState) (nodeId : Nat) : CAState :=
  cleanLoop (st.heap nodeId).ticket st.caSize st.caBegin st

/-- CircularArray::add (part_010 lines 93-99): clean when the ring is at
max_size, then store the node at (begin + size) % max_size and grow size. -/
def CAState.add (st : CAState) (nodeId : Nat) : CAState :=
  let st1 := if st.caSize = max_size then st.clean nodeId else st
  let pos := (st1.caBegin + st1.caSize) % max_size
  { st1 with
    slots := fun p => if p = pos then nodeId else st1.slots p,
    caSize := st1.caSize + 1 }

/-- An initially empty retire ring over a heap in which every node id has
ticket 5000 and next pointer 0. -/
def caInit : CAState :=
  ⟨0, 0, fun _ => 0, fun _ => ⟨5000, 0⟩, []⟩

/-- Add node ids 0, 1, ..., k-1 in order to the ring. -/
def iterAdd (st : CAState) : Nat → CAState
  | 0 => st
  | k + 1 => (iterAdd st k).add k

/-- The (removed node, its former successor) pairs that the clean scan
(part_010 lines 59-71) removes, in scan order: the same loop as cleanLoop,
recording at each removal the slot's node id and its next pointer at removal
time, and stopping at the first examined node whose ticket does not lag
arr by min_size. -/
def cleanRemovedPairs (arr : Nat) : Nat → Nat → CAState → List (Nat × Nat)
  | 0, _, _ => []
  | fuel + 1, pos, st =>
    let pos1 := if pos == max_size then 0 else pos
    if sub64 arr min_size < (st.heap (st.slots pos1)).ticket then []
    else (st.slots pos1, (st.heap (st.slots pos1)).next) ::
      cleanRemovedPairs arr fuel (pos1 + 1) (cleanStep st pos1)

/-- A sequence of CircularArray::add calls, as performed by the retiring
loop of applyUpdate (part_002 lines 273-277). -/
def addAll (st : CAState) (ns : List Nat) : CAState :=
  ns.foldl CAState.add st

/-- Along a sequence of adds, every add that finds the ring full arrives
with a ticket that the oldest slot's ticket lags by at least min_size (the
uint64 comparison of clean). -/
def addSeqOK : CAState → List Nat → Prop
  | _, [] => True
  | st, n :: ns =>
    (st.caSize = max_size →
      ¬ sub64 (st.heap n).ticket min_size <
          (st.heap (st.slots st.caBegin)).ticket) ∧
    addSeqOK (st.add n) ns

/-- An initially empty retire ring over the heap H. -/
def caBase (H : Nat → CANode) : CAState :=
  ⟨0, 0, fun _ => 0, H, []⟩

/-- A heap in which node 0 carries a fresh ticket 5000, the arriving node
2000 carries ticket 5500, and every other node carries the old ticket 1
with next pointer 3. -/
def heap2 : Nat → CANode := fun p =>
  if p = 0 then ⟨5000, 7⟩ else if p = 2000 then ⟨5500, 0⟩ else ⟨1, 3⟩

/-- An initially empty ring over heap2. -/
def caInit2 : CAState := caBase heap2

/-- A full ring: 2000 slots holding node ids 0..1999, every stored node with
ticket 100, and node 5000 (the arriving one) with ticket 9000. -/
def caFull : CAState :=
  ⟨0, 2000, fun p => p, fun p => if p = 5000 then ⟨9000, 0⟩ else ⟨100, p + 1⟩, []⟩

/-- The ticket store of the enqueue protocol (part_002 line 156, part_000
line 986): the node being linked behind ltail gets ticket
ltail->ticket + 1, a uint64. -/
def linkTicket (pred : Nat) : Nat := (pred + 1) % w64

/-- The tickets along the mutation log after n nodes have been linked behind
the sentinel: the sentinel starts with ticket 0 (Node's ticket initializer,
part_002 line 66), and each linked node receives linkTicket of the ticket of
the node it was linked behind, before the tail CAS advances to it
(part_002 lines 156-157). -/
def logTickets : Nat → List Nat
  | 0 => [0]
  | n + 1 => logTickets n ++ [linkTicket ((logTickets n).getLastD 0)]

/-- MAX_THREADS (part_002 line 59): the Combined rwLock is constructed with
this thread bound. -/
def MAX_THREADS : Nat := 128

/-- MAX_READ_TRIES (part_002 line 58): shared-lock attempts before a reader
escalates to the mutation queue. -/
def MAX_READ_TRIES : Nat := 10

/-- The node id of the sentinel. -/
def sentinelId : Nat := 0

/-- Where a Combined slot's obj came from: the instance the caller passed to
the constructor, or a fresh deep copy new C(*inst). -/
inductive ObjSrc where
  | inst
  | copyOf
deriving DecidableEq, Repr

/-- One Combined slot (part_002 lines 74-85): head pointer into the log
(none = nullptr), replica object (none = nullptr), and its rwLock. -/
structure CombinedModel where
  head : Option Nat
  obj : Option ObjSrc
  lock : LockState
deriving DecidableEq, Repr

/-- A default-constructed Combined: null head, null obj, fresh lock for
MAX_THREADS threads. -/
def emptyComb : CombinedModel :=
  ⟨none, none, initLock MAX_THREADS⟩

/-- A Combined slot as the constructor populates it: head = sentinel, obj
from the given source, lock untouched. -/
def combR (src : ObjSrc) : CombinedModel :=
  ⟨some sentinelId, some src, initLock MAX_THREADS⟩

/-- The state the CXMutationWF constructor establishes: the pool, the
sentinel's refcnt, and curComb. -/
structure CXState where
  combs : List CombinedModel
  sentinelRefcnt : Int
  curComb : Option Nat
deriving DecidableEq, Repr

/-- The CXMutationWF constructor (part_002 lines 164-184) for participant
count n: allocate 2n default Combineds; populate slots 0 (the caller's
instance) and 1 (a copy); when n >= 2 also populate slots 2 and 3 with copies
and set the sentinel's refcnt to 4, else to 2; setReadLock slot 0's lock;
publish curComb = slot 0.  The CXMutationWFTimed constructor (part_000 lines
806-826) is identical in these effects. -/
def mkCX (n : Nat) : CXState :=
  let pool0 := List.replicate (2 * n) emptyComb
  let pool1 := (pool0.set 0 (combR ObjSrc.inst)).set 1 (combR ObjSrc.copyOf)
  let pool2 :=
    if 2 ≤ n then (pool1.set 2 (combR ObjSrc.copyOf)).set 3 (combR ObjSrc.copyOf)
    else pool1
  let rc : Int := if 2 ≤ n then 4 else 2
  let c0 := pool2.getD 0 emptyComb
  let pool3 := pool2.set 0 { c0 with lock := (setReadLock c0.lock).post }
  ⟨pool3, rc, some 0⟩

/-- Outcome of the Combined-acquisition step of applyUpdate. -/
inductive AcquireResult where
  | acquired : Nat → AcquireResult
  | assertAbort
deriving DecidableEq, Repr

/-- The pool scan of CXMutationWF::applyUpdate (part_002 lines 217-227): try
exclusiveTryLock on combs[0..2*maxThreads) in order and keep the first slot
that succeeds; when every attempt fails the code prints
an error line and fails assert(false), modelled by assertAbort.  In this
uninterfered model a failed exclusiveTryLock leaves the lock unchanged, so
the scan is a pure search. -/
def applyUpdateAcquire (locks : List LockState) (tid : Nat) : AcquireResult :=
  match locks.findIdx? (fun l => (exclusiveTryLock l tid).ok) with
  | some i => AcquireResult.acquired i
  | none => AcquireResult.assertAbort

/-- Outcome of an applyUpdate call for result type R. -/
inductive UpdOutcome (R : Type) where
  | ret : R → UpdOutcome R
  | assertAbort
deriving DecidableEq, Repr

/-- The exhaustion branch of CXMutationWFTimed::applyUpdate (part_000 lines
862-866): when getNewComb returned nullptr, return the node's result if the
node is done, otherwise print an error line and fail assert(false). -/
def timedExhaustOutcome {R : Type} (done : Bool) (result : R) : UpdOutcome R :=
  if done then UpdOutcome.ret result else UpdOutcome.assertAbort

/-- What one iteration of the applyRead loop observes: the curComb load at
the iteration's start, the sharedTryLock outcome, and the curComb reload
made after a successful lock. -/
structure ReadIterObs where
  lcomb : Nat
  lockOk : Bool
  curAfter : Nat
deriving DecidableEq, Repr

/-- The submission node as applyRead sees it: its result slot, and the done
flag (present on CXMutationWFTimed::Node, part_000 line 684; the
CXMutationWF::Node of part_002 has no done field at all). -/
structure NodeState (R : Type) where
  result : R
  done : Bool
deriving DecidableEq, Repr

/-- Outcome of an applyRead call: a fast-path return from iteration i with
the value read from the observed Combined's replica, or the escalated return
of the submission node's stored result. -/
inductive ReadOutcome (R : Type) where
  | fast : Nat → R → ReadOutcome R
  | escalated : R → ReadOutcome R
deriving DecidableEq, Repr

/-- An iteration succeeds when sharedTryLock returned true and the curComb
reload matched the pointer locked (part_002 lines 298-299). -/
def readSuccess (env : Nat → ReadIterObs) (i : Nat) : Bool :=
  (env i).lockOk && ((env i).lcomb == (env i).curAfter)

/-- True when no iteration before i succeeds. -/
def noSuccessBelow (env : Nat → ReadIterObs) (i : Nat) : Bool :=
  (List.range i).all (fun j => !readSuccess env j)

/-- The loop of CXMutationWF::applyRead (part_002 lines 291-306) and of
CXMutationWFTimed::applyRead (part_000 lines 934-949), as a function of the
per-iteration observations: at iteration MAX_READ_TRIES the read is enqueued
as a mutation node (recorded in the second component); a successful iteration
returns readFn of the locked Combined; when the fuel (10 + maxThreads at the
top call) runs out, the code returns myNode->result.load() directly, reading
nothing else of the node. -/
def applyReadGo {R : Type} (env : Nat → ReadIterObs) (readFn : Nat → R)
    (node : NodeState R) : Nat → Nat → Option Nat → ReadOutcome R × Option Nat
  | 0, _, enq => (ReadOutcome.escalated node.result, enq)
  | fuel + 1, i, enq =>
    let enq1 := if i = MAX_READ_TRIES then some i else enq
    if readSuccess env i then (ReadOutcome.fast i (readFn (env i).lcomb), enq1)
    else applyReadGo env readFn node fuel (i + 1) enq1

/-- applyRead for participant count maxThreads: run the loop for
MAX_READ_TRIES + maxThreads iterations starting at 0 with no node enqueued. -/
def applyRead {R : Type} (maxThreads : Nat) (env : Nat → ReadIterObs)
    (readFn : Nat → R) (node : NodeState R) : ReadOutcome R × Option Nat :=
  applyReadGo env readFn node (MAX_READ_TRIES + maxThreads) 0 none

/-- An environment in which every sharedTryLock attempt fails. -/
def envAllFail : Nat → ReadIterObs := fun _ => ⟨0, false, 0⟩

/-- An environment in which every iteration succeeds on Combined 7. -/
def envAllGood : Nat → ReadIterObs := fun _ => ⟨7, true, 7⟩

/-- The copy-cost signal of CXMutationWFTimed: the copyTime field holds the
stored microsecond estimate (part_000 line 726). -/
structure TimedCopyState where
  copyTime : Nat
deriving DecidableEq, Repr

/-- CXMutationWFTimed::copyDS (part_000 lines 796-802): perform the copy,
measure its duration, and store the measured duration into copyTime.  The
store is a plain overwrite of the previous value. -/
def copyDS (st : TimedCopyState) (measured : Nat) : TimedCopyState :=
  { st with copyTime := measured }

/-- A lock whose packed word is held in WLOCK with an empty read indicator. -/
def lockW : LockState :=
  ⟨⟨List.replicate MAX_THREADS NOT_READING⟩, ⟨0, LState.WLOCK⟩⟩

/-- A concrete reclamation state: one thread with one empty hazard slot, a
heap in which every node is self-linked with refcnt 0, and an empty retired
list. -/
def hpStW : HPState := ⟨[[none]], fun p => ⟨p, 0⟩, []⟩

/-- The scan of HazardPointersCX::retire keeps exactly the elements failing
the deletion predicate and frees exactly those satisfying it, in order. -/
theorem retireScan_eq (st : HPState) (l : List Nat) :
    retireScan st l =
      (l.filter (fun p => !canReclaim st p), l.filter (fun p => canReclaim st p)) := by
  induction l with
  | nil => rfl
  | cons p rest ih =>
    cases h : canReclaim st p <;> simp [retireScan, ih, List.filter_cons, h]

/-- Claim C2: HazardPointersCX::retire deletes a retired node only when all
three conditions hold at once — no hazard slot references it, its refcnt is
0, and its next pointer is self-linked — and a node failing any one of the
three stays in the retired list and is not freed by that call. -/
theorem C2_retire_tricondition (st : HPState) (ptr q : Nat) :
    (q ∈ (st.retire ptr).2 →
      tombstoned st.heap q = true ∧ noHazard st.hpSlots q = true ∧
        (st.heap q).refcnt = 0) ∧
    (q ∈ st.retiredList ++ [ptr] → canReclaim st q = false →
      q ∈ (st.retire ptr).1.retiredList ∧ q ∉ (st.retire ptr).2) := by
  have hscan := retireScan_eq st (st.retiredList ++ [ptr])
  constructor
  · intro hq
    have hcr : canReclaim st q = true := by
      simp only [HPState.retire, hscan, List.mem_filter] at hq
      exact hq.2
    have h3 : (tombstoned st.heap q && noHazard st.hpSlots q &&
        ((st.heap q).refcnt == 0)) = true := hcr
    simp only [Bool.and_eq_true, beq_iff_eq] at h3
    exact ⟨h3.1.1, h3.1.2, h3.2⟩
  · intro hmem hfail
    constructor
    · simp only [HPState.retire, hscan, List.mem_filter]
      exact ⟨hmem, by simp [hfail]⟩
    · simp [HPState.retire, hscan, List.mem_filter, hfail]

/-- Witness for C2: in hpStW the freshly retired node 3 lands in the freed
list, and the theorem extracts the three reclamation conditions for it. -/
theorem C2_witness :
    tombstoned hpStW.heap 3 = true ∧ noHazard hpStW.hpSlots 3 = true ∧
      (hpStW.heap 3).refcnt = 0 :=
  (C2_retire_tricondition hpStW 3 3).1 (by decide)

/-- Claim C9 counterexample: the value copyDS stores does not combine the
new measurement with the previous estimate — it is not an exponential moving
average for any weight strictly between 0 and 1, as the stored value is
independent of the previous estimate (shown at previous estimates 100 and 0
with measurement 7, and refuted in general at previous 1, measurement 0). -/
theorem C9_counterexample :
    (copyDS ⟨100⟩ 7).copyTime = 7 ∧ (copyDS ⟨0⟩ 7).copyTime = 7 ∧
      ¬ ∃ a : ℚ, 0 < a ∧ a < 1 ∧
        ∀ p m : Nat, ((copyDS ⟨p⟩ m).copyTime : ℚ) = a * m + (1 - a) * p := by
  refine ⟨rfl, rfl, ?_⟩
  rintro ⟨a, _, h1, h⟩
  have h2 := h 1 0
  simp only [copyDS] at h2
  push_cast at h2
  linarith

/-- Claim C9 (amended): after every deep copy, copyDS stores the newly
measured duration as a plain overwrite — the stored estimate equals the last
measurement and is independent of the previous estimate. -/
theorem C9_copyDS_overwrite (p q m : Nat) :
    (copyDS ⟨p⟩ m).copyTime = m ∧ copyDS ⟨p⟩ m = copyDS ⟨q⟩ m :=
  ⟨rfl, rfl⟩

/-- Length of the ticket log: sentinel plus the n linked nodes. -/
theorem logTickets_length (n : Nat) : (logTickets n).length = n + 1 := by
  induction n with
  | zero => rfl
  | succ n ih => simp [logTickets, ih]

/-- Before any uint64 wraparound the ticket log is exactly 0, 1, ..., n. -/
theorem logTickets_eq_range (n : Nat) (h : n + 1 ≤ w64) :
    logTickets n = List.range (n + 1) := by
  induction n with
  | zero => rfl
  | succ n ih =>
    have h1 : n + 1 ≤ w64 := by omega
    have ih1 := ih h1
    have hlast : (logTickets n).getLastD 0 = n := by
      rw [ih1, List.range_succ, List.getLastD_concat]
    have hlt : linkTicket n = n + 1 := by
      have hw : n + 1 < w64 := by omega
      simp [linkTicket, Nat.mod_eq_of_lt hw]
    simp only [logTickets]
    rw [hlast, hlt, ih1, ← List.range_succ]

/-- Claim C5: the sentinel carries ticket 0; every linked node's ticket is
its predecessor's ticket plus one (assigned before the tail advances, see
the linkTicket model); hence tickets are strictly increasing along the log;
and linking further nodes never changes the tickets already in the log. -/
theorem C5_ticket_monotone (n : Nat) (h : n + 1 ≤ w64) :
    (logTickets n).head? = some 0 ∧
    List.Chain' (fun a b => b = linkTicket a) (logTickets n) ∧
    List.Chain' (fun a b => a < b) (logTickets n) ∧
    (logTickets (n + 1)).take (n + 1) = logTickets n := by
  have hr := logTickets_eq_range n h
  refine ⟨?_, ?_, ?_, ?_⟩
  · rw [hr, List.range_succ_eq_map]; rfl
  · rw [hr]
    refine (List.chain'_range_succ _ n).mpr (fun m hm => ?_)
    have hw : m + 1 < w64 := by omega
    simp [linkTicket, Nat.mod_eq_of_lt hw]
  · rw [hr]
    exact (List.chain'_range_succ _ n).mpr (fun m _ => Nat.lt_succ_self m)
  · have hl := logTickets_length n
    have hstep : logTickets (n + 1) =
        logTickets n ++ [linkTicket ((logTickets n).getLastD 0)] := rfl
    rw [hstep, ← hl, List.take_left]

/-- Witness for C5: the log of five linked nodes, with the no-wraparound
bound discharged, has head ticket 0 and strictly increasing tickets. -/
theorem C5_witness :
    5 + 1 ≤ w64 ∧ (logTickets 5).head? = some 0 ∧
      List.Chain' (fun a b => a < b) (logTickets 5) :=
  have h : 5 + 1 ≤ w64 := by norm_num [w64]
  ⟨h, (C5_ticket_monotone 5 h).1, (C5_ticket_monotone 5 h).2.2.1⟩

/-- Both branches of the sharedTryLock return expression record the arrive. -/
theorem sharedFinish_didArrive (ws : StructData) (o : SharedObs) (ct : Bool) :
    (sharedFinish ws o ct).didArrive = true := by
  unfold sharedFinish; split <;> rfl

/-- The return expression performs no CAS write. -/
theorem sharedFinish_casWrite (ws : StructData) (o : SharedObs) (ct : Bool) :
    (sharedFinish ws o ct).casWrite = none := by
  unfold sharedFinish; split <;> rfl

/-- The return expression preserves the CAS-attempt flag. -/
theorem sharedFinish_casTried (ws : StructData) (o : SharedObs) (ct : Bool) :
    (sharedFinish ws o ct).casTried = ct := by
  unfold sharedFinish; split <;> rfl

/-- Claim C4: sharedTryLock returns false immediately on reading WRITER
without touching the read indicator; otherwise it arrives on its slot; on
re-reading HELPER it attempts the HELPER→NOLOCK CAS and returns true on
success; on reading WRITER it rolls the arrive back, and when the rollback
finds the slot bumped from READING to READING+1 (a writer's abortRollback)
the arrive counts as still valid and the call returns true. -/
theorem C4_sharedTryLock (w0 : StructData) (o : SharedObs) :
    (w0.state = LState.WLOCK →
      sharedTryLockRun w0 o = ⟨false, false, false, none, false, none⟩) ∧
    (w0.state ≠ LState.WLOCK → (sharedTryLockRun w0 o).didArrive = true) ∧
    (w0.state ≠ LState.WLOCK → o.w1.state = LState.HLOCK →
      (sharedTryLockRun w0 o).casTried = true) ∧
    (w0.state ≠ LState.WLOCK → o.w1.state = LState.HLOCK → o.casHit = true →
      (sharedTryLockRun w0 o).ok = true ∧
      (sharedTryLockRun w0 o).casWrite = some (o.w1, ⟨o.w1.seq, LState.NOLOCK⟩)) ∧
    (w0.state ≠ LState.WLOCK → o.w1.state = LState.WLOCK →
      (sharedTryLockRun w0 o).didRollback = true ∧
      (o.slotAtRollback = READING + 1 → (sharedTryLockRun w0 o).ok = true) ∧
      (o.slotAtRollback = READING → (sharedTryLockRun w0 o).ok = false)) ∧
    (w0.state ≠ LState.WLOCK → o.w1.state = LState.HLOCK → o.casHit = false →
      o.w2.state = LState.WLOCK →
      (sharedTryLockRun w0 o).didRollback = true ∧
      (o.slotAtRollback = READING + 1 → (sharedTryLockRun w0 o).ok = true) ∧
      (o.slotAtRollback = READING → (sharedTryLockRun w0 o).ok = false)) := by
  refine ⟨fun h => by simp [sharedTryLockRun, h], ?_, ?_, ?_, ?_, ?_⟩
  · intro h
    by_cases h1 : o.w1.state = LState.HLOCK
    · by_cases h2 : o.casHit = true
      · simp [sharedTryLockRun, h, h1, h2]
      · simp [sharedTryLockRun, h, h1, h2, sharedFinish_didArrive]
    · simp [sharedTryLockRun, h, h1, sharedFinish_didArrive]
  · intro h h1
    by_cases h2 : o.casHit = true
    · simp [sharedTryLockRun, h, h1, h2]
    · simp [sharedTryLockRun, h, h1, h2, sharedFinish_casTried]
  · intro h h1 h2
    simp [sharedTryLockRun, h, h1, h2]
  · intro h h1
    have hne : o.w1.state ≠ LState.HLOCK := by simp [h1]
    refine ⟨by simp [sharedTryLockRun, h, hne, sharedFinish, h1], fun hs => ?_, fun hs => ?_⟩
    · simp [sharedTryLockRun, h, hne, sharedFinish, h1, hs, READING]
    · simp [sharedTryLockRun, h, hne, sharedFinish, h1, hs]
  · intro h h1 h2 h3
    refine ⟨by simp [sharedTryLockRun, h, h1, h2, sharedFinish, h3], fun hs => ?_, fun hs => ?_⟩
    · simp [sharedTryLockRun, h, h1, h2, sharedFinish, h3, hs, READING]
    · simp [sharedTryLockRun, h, h1, h2, sharedFinish, h3, hs]

/-- Witness for C4: from NOLOCK, observing HELPER with the CAS landing, the
call succeeds and its CAS write is the HELPER→NOLOCK transition. -/
theorem C4_witness :
    (sharedTryLockRun ⟨0, LState.NOLOCK⟩ ⟨⟨5, LState.HLOCK⟩, true, ⟨5, LState.HLOCK⟩, 1⟩).ok = true ∧
    (sharedTryLockRun ⟨0, LState.NOLOCK⟩ ⟨⟨5, LState.HLOCK⟩, true, ⟨5, LState.HLOCK⟩, 1⟩).casWrite =
      some (⟨5, LState.HLOCK⟩, ⟨5, LState.NOLOCK⟩) :=
  (C4_sharedTryLock ⟨0, LState.NOLOCK⟩ ⟨⟨5, LState.HLOCK⟩, true, ⟨5, LState.HLOCK⟩, 1⟩).2.2.2.1
    (by decide) rfl rfl

/-- Claim C3 counterexample: the CXMutationWF constructor (part_002 line 182)
invokes setReadLock on combs[0]'s freshly constructed lock; that call changes
the packed word from (0, NOLOCK) to (0, RLOCK), a transition that is none of
the five listed ones. -/
theorem C3_counterexample :
    (setReadLock (initLock MAX_THREADS)).writes =
      [(⟨0, LState.NOLOCK⟩, ⟨0, LState.RLOCK⟩)] ∧
    ¬ validTransition ⟨0, LState.NOLOCK⟩ ⟨0, LState.RLOCK⟩ :=
  ⟨rfl, by decide⟩

/-- Incrementing the 62-bit seq field always changes it while it is in
range. -/
theorem nextSeq_ne (s : Nat) (h : s < seqMod) : nextSeq s ≠ s := by
  have h62 : seqMod = 4611686018427387904 := by norm_num [seqMod]
  unfold nextSeq
  rcases Nat.lt_or_ge (s + 1) seqMod with h1 | h1
  · rw [Nat.mod_eq_of_lt h1]; omega
  · have hs : s + 1 = seqMod := by omega
    rw [hs, Nat.mod_self]; omega

/-- Any CAS write sharedTryLock performs is the reader-capture transition
HELPER → NOLOCK with unchanged seq. -/
theorem sharedTryLock_casWrite_valid (w0 : StructData) (o : SharedObs)
    (pr : StructData × StructData) :
    (sharedTryLockRun w0 o).casWrite = some pr → validTransition pr.1 pr.2 := by
  by_cases h0 : w0.state = LState.WLOCK
  · simp [sharedTryLockRun, h0]
  · by_cases h1 : o.w1.state = LState.HLOCK
    · by_cases h2 : o.casHit = true
      · intro hw
        simp [sharedTryLockRun, h0, h1, h2] at hw
        subst hw
        exact Or.inr (Or.inr (Or.inl ⟨h1, rfl⟩))
      · simp [sharedTryLockRun, h0, h1, h2, sharedFinish_casWrite]
    · simp [sharedTryLockRun, h0, h1, sharedFinish_casWrite]

/-- Claim C3 (amended): every packed-word change performed by the lock
methods follows one of the five listed transitions, except setReadLock,
which performs the additional change (s, NOLOCK) → (s, RLOCK) when invoked
on an unlocked lock (done once, at construction, on the initial current
Combined); seq changes exactly on the NOLOCK→HELPER step, where it is
incremented; WRITER is entered only with the read indicator empty; and
exclusiveTryLock returns false, without blocking, whenever the state is
WRITER or READER-DRAIN or the read indicator is non-empty.  Method bodies
run in the uninterfered semantics; the preconditions on exclusiveUnlock,
downgrade and setReadUnlock reflect the states in which CXMutationWF calls
them. -/
theorem C3_transitions (st : LockState) (tid : Nat) (o : SharedObs)
    (pr : StructData × StructData) (hseq : st.wstate.seq < seqMod) :
    ((sharedTryLockRun st.wstate o).casWrite = some pr → validTransition pr.1 pr.2) ∧
    (pr ∈ (exclusiveTryLock st tid).writes → validTransition pr.1 pr.2) ∧
    (st.wstate.state = LState.WLOCK → pr ∈ (exclusiveUnlock st).writes →
      validTransition pr.1 pr.2) ∧
    (st.wstate.state = LState.WLOCK → pr ∈ (downgrade st).writes →
      validTransition pr.1 pr.2) ∧
    (st.wstate.state = LState.RLOCK → pr ∈ (setReadUnlock st).writes →
      validTransition pr.1 pr.2) ∧
    ((setReadLock st).writes = [(st.wstate, ⟨st.wstate.seq, LState.RLOCK⟩)]) ∧
    (pr ∈ (exclusiveTryLock st tid).writes →
      (pr.2.seq ≠ pr.1.seq ↔
        (pr.1.state = LState.NOLOCK ∧ pr.2 = ⟨nextSeq pr.1.seq, LState.HLOCK⟩))) ∧
    (pr ∈ (exclusiveTryLock st tid).writes → pr.2.state = LState.WLOCK →
      st.ri.isEmpty = true) ∧
    ((st.wstate.state = LState.WLOCK ∨ st.wstate.state = LState.RLOCK ∨
        st.ri.isEmpty = false) → (exclusiveTryLock st tid).ok = false) := by
  obtain ⟨ri, s, stt⟩ := st
  refine ⟨sharedTryLock_casWrite_valid _ o pr, ?_, ?_, ?_, ?_, rfl, ?_, ?_, ?_⟩
  · intro hmem
    cases stt with
    | NOLOCK =>
      cases hE : ri.isEmpty with
      | true =>
        simp [exclusiveTryLock, hE] at hmem
        rcases hmem with rfl | rfl
        · exact Or.inl ⟨rfl, rfl⟩
        · exact Or.inr (Or.inl ⟨rfl, rfl⟩)
      | false => simp [exclusiveTryLock, hE] at hmem
    | HLOCK =>
      cases hE : ri.isEmpty with
      | true =>
        simp [exclusiveTryLock, hE] at hmem
        subst hmem
        exact Or.inr (Or.inl ⟨rfl, rfl⟩)
      | false => simp [exclusiveTryLock, hE] at hmem
    | RLOCK => simp [exclusiveTryLock] at hmem
    | WLOCK => simp [exclusiveTryLock] at hmem
  · rintro rfl hmem
    simp [exclusiveUnlock] at hmem
    rcases hmem with rfl | rfl
    · exact Or.inr (Or.inr (Or.inr (Or.inl ⟨rfl, rfl⟩)))
    · exact Or.inr (Or.inr (Or.inr (Or.inr ⟨rfl, rfl⟩)))
  · rintro rfl hmem
    simp [downgrade] at hmem
    subst hmem
    exact Or.inr (Or.inr (Or.inr (Or.inl ⟨rfl, rfl⟩)))
  · rintro rfl hmem
    simp [setReadUnlock] at hmem
    subst hmem
    exact Or.inr (Or.inr (Or.inr (Or.inr ⟨rfl, rfl⟩)))
  · intro hmem
    cases stt with
    | NOLOCK =>
      cases hE : ri.isEmpty with
      | true =>
        simp [exclusiveTryLock, hE] at hmem
        rcases hmem with rfl | rfl
        · exact ⟨fun _ => ⟨rfl, rfl⟩, fun _ => nextSeq_ne s hseq⟩
        · exact ⟨fun h => absurd rfl h, fun h => by simp at h⟩
      | false => simp [exclusiveTryLock, hE] at hmem
    | HLOCK =>
      cases hE : ri.isEmpty with
      | true =>
        simp [exclusiveTryLock, hE] at hmem
        subst hmem
        exact ⟨fun h => absurd rfl h, fun h => by simp at h⟩
      | false => simp [exclusiveTryLock, hE] at hmem
    | RLOCK => simp [exclusiveTryLock] at hmem
    | WLOCK => simp [exclusiveTryLock] at hmem
  · intro hmem hw
    cases stt with
    | NOLOCK =>
      cases hE : ri.isEmpty with
      | true => rfl
      | false => simp [exclusiveTryLock, hE] at hmem
    | HLOCK =>
      cases hE : ri.isEmpty with
      | true => rfl
      | false => simp [exclusiveTryLock, hE] at hmem
    | RLOCK => simp [exclusiveTryLock] at hmem
    | WLOCK => simp [exclusiveTryLock] at hmem
  · intro hdisj
    rcases hdisj with hw | hw | hE
    · simp only at hw
      subst hw
      simp [exclusiveTryLock]
    · simp only at hw
      subst hw
      simp [exclusiveTryLock]
    · simp only at hE
      cases stt <;> simp [exclusiveTryLock, hE]

/-- Witness for C3 (amended): on a lock held in WRITER state, the first
exclusiveUnlock write is the downgrade transition WRITER → READER-DRAIN, and
exclusiveTryLock reports failure. -/
theorem C3_witness :
    validTransition ⟨0, LState.WLOCK⟩ ⟨0, LState.RLOCK⟩ ∧
      (exclusiveTryLock lockW 0).ok = false :=
  ⟨(C3_transitions lockW 0 ⟨⟨0, LState.NOLOCK⟩, true, ⟨0, LState.NOLOCK⟩, 1⟩
      (⟨0, LState.WLOCK⟩, ⟨0, LState.RLOCK⟩) (by norm_num [lockW, seqMod])).2.2.1
      rfl (by decide),
    (C3_transitions lockW 0 ⟨⟨0, LState.NOLOCK⟩, true, ⟨0, LState.NOLOCK⟩, 1⟩
      (⟨0, LState.WLOCK⟩, ⟨0, LState.RLOCK⟩) (by norm_num [lockW, seqMod])).2.2.2.2.2.2.2.2
      (Or.inl rfl)⟩

/-- Claim C7 counterexample: with every Combined lock held in WRITER state,
the pool scan of applyUpdate acquires nothing (maxThreads = 2, so 4 slots)
and the code reaches the error-print plus assert(false) branch, modelled by
assertAbort: on exhaustion it aborts instead of returning a distinguished
sentinel value to the caller. -/
theorem C7_counterexample :
    applyUpdateAcquire (List.replicate 4 lockW) 0 = AcquireResult.assertAbort := by
  decide

/-- Claim C7 (amended): when the pool scan finds no Combined whose
exclusiveTryLock succeeds, applyUpdate logs an error and fails assert(false)
(aborting the process), rather than returning a sentinel result; the timed
variant first checks the submission node's done flag and returns the node's
stored result when a helper already completed the operation, aborting
otherwise. -/
theorem C7_exhaustion {R : Type} (locks : List LockState) (tid : Nat) (r : R)
    (h : locks.all (fun l => !(exclusiveTryLock l tid).ok) = true) :
    applyUpdateAcquire locks tid = AcquireResult.assertAbort ∧
      timedExhaustOutcome true r = UpdOutcome.ret r ∧
      timedExhaustOutcome false r = UpdOutcome.assertAbort := by
  refine ⟨?_, rfl, rfl⟩
  unfold applyUpdateAcquire
  have hnone : locks.findIdx? (fun l => (exclusiveTryLock l tid).ok) = none := by
    rw [List.findIdx?_eq_none_iff]
    intro x hx
    have hx2 := List.all_eq_true.mp h x hx
    simpa using hx2
  rw [hnone]

/-- Witness for C7 (amended): the all-WRITER pool of four locks satisfies the
all-fail hypothesis, and the timed variant with done set returns the stored
result. -/
theorem C7_witness :
    applyUpdateAcquire (List.replicate 4 lockW) 1 = AcquireResult.assertAbort ∧
      timedExhaustOutcome true (42 : Nat) = UpdOutcome.ret 42 :=
  ⟨(C7_exhaustion (List.replicate 4 lockW) 1 (42 : Nat) (by decide)).1,
    (C7_exhaustion (List.replicate 4 lockW) 1 (42 : Nat) (by decide)).2.1⟩

/-- Claim C6 counterexample: with every shared acquisition failing
(participants = 2), applyRead enqueues at iteration 10 and falls through to
return the node's stored result 42 even though the node's done flag is
false — the escalated return does not wait for, or read, done (the
CXMutationWF node does not even carry a done field). -/
theorem C6_counterexample :
    applyRead 2 envAllFail (fun _ => 0) (⟨42, false⟩ : NodeState Nat) =
      (ReadOutcome.escalated 42, some 10) ∧
    (⟨42, false⟩ : NodeState Nat).done = false :=
  ⟨by decide, rfl⟩

/-- When every iteration in the window fails, the applyRead loop runs to the
end of its fuel, enqueueing at iteration MAX_READ_TRIES if the window covers
it, and returns the node's stored result. -/
theorem applyReadGo_allFail {R : Type} (env : Nat → ReadIterObs)
    (readFn : Nat → R) (node : NodeState R) :
    ∀ (fuel i : Nat) (enq : Option Nat),
      (∀ j, i ≤ j → j < i + fuel → readSuccess env j = false) →
      applyReadGo env readFn node fuel i enq =
        (ReadOutcome.escalated node.result,
          if i ≤ MAX_READ_TRIES ∧ MAX_READ_TRIES < i + fuel then some MAX_READ_TRIES
          else enq) := by
  intro fuel
  induction fuel with
  | zero =>
    intro i enq h
    simp only [applyReadGo]
    rw [if_neg (by omega)]
  | succ fuel ih =>
    intro i enq h
    have hfail : readSuccess env i = false := h i le_rfl (by omega)
    simp only [applyReadGo, hfail, Bool.false_eq_true, if_false]
    rw [ih (i + 1) _ (fun j hj1 hj2 => h j (by omega) (by omega))]
    congr 1
    by_cases h10 : i = MAX_READ_TRIES
    · subst h10
      rw [if_pos rfl, if_neg (by omega), if_pos ⟨le_rfl, by omega⟩]
    · rw [if_neg h10]
      split_ifs <;> first | rfl | omega

/-- When iteration k is the first success in the window, the applyRead loop
returns the value read from the Combined observed at k, having enqueued at
iteration MAX_READ_TRIES exactly when the loop reached it first. -/
theorem applyReadGo_firstSuccess {R : Type} (env : Nat → ReadIterObs)
    (readFn : Nat → R) (node : NodeState R) :
    ∀ (fuel i k : Nat) (enq : Option Nat),
      i ≤ k → k < i + fuel →
      (∀ j, i ≤ j → j < k → readSuccess env j = false) →
      readSuccess env k = true →
      applyReadGo env readFn node fuel i enq =
        (ReadOutcome.fast k (readFn (env k).lcomb),
          if i ≤ MAX_READ_TRIES ∧ MAX_READ_TRIES ≤ k then some MAX_READ_TRIES
          else enq) := by
  intro fuel
  induction fuel with
  | zero =>
    intro i k enq h1 h2 hpre hk
    exact absurd h2 (by omega)
  | succ fuel ih =>
    intro i k enq h1 h2 hpre hk
    by_cases hik : i = k
    · subst hik
      simp only [applyReadGo, hk, if_true]
      by_cases h10 : i = MAX_READ_TRIES
      · subst h10
        rw [if_pos rfl, if_pos ⟨le_rfl, le_rfl⟩]
      · rw [if_neg h10, if_neg (fun hc => h10 (Nat.le_antisymm hc.1 hc.2))]
    · have hfail : readSuccess env i = false := hpre i le_rfl (by omega)
      simp only [applyReadGo, hfail, Bool.false_eq_true, if_false]
      rw [ih (i + 1) k _ (by omega) (by omega)
        (fun j hj1 hj2 => hpre j (by omega) hj2) hk]
      congr 1
      by_cases h10 : i = MAX_READ_TRIES
      · subst h10
        rw [if_pos rfl, if_neg (by omega), if_pos ⟨le_rfl, by omega⟩]
      · rw [if_neg h10]
        split_ifs <;> first | rfl | omega

/-- Claim C6 (amended): applyRead attempts shared acquisitions for at most
MAX_READ_TRIES + maxThreads total iterations; the first iteration i that
acquires the lock with the pointer re-verified returns readFn of that
Combined, the read having been enqueued as a mutation node exactly when the
first MAX_READ_TRIES iterations all failed (the node is created at iteration
MAX_READ_TRIES, and the loop keeps retrying afterwards); when every
iteration fails, applyRead returns the enqueued node's stored result
directly, without consulting the done flag. -/
theorem C6_applyRead {R : Type} (mt i : Nat) (env : Nat → ReadIterObs)
    (readFn : Nat → R) (node : NodeState R) (hmt : 1 ≤ mt) :
    (readSuccess env i = true → noSuccessBelow env i = true →
      i < MAX_READ_TRIES + mt →
      applyRead mt env readFn node =
        (ReadOutcome.fast i (readFn (env i).lcomb),
          if MAX_READ_TRIES ≤ i then some MAX_READ_TRIES else none)) ∧
    (noSuccessBelow env (MAX_READ_TRIES + mt) = true →
      applyRead mt env readFn node =
        (ReadOutcome.escalated node.result, some MAX_READ_TRIES)) := by
  have hns : ∀ m, noSuccessBelow env m = true →
      ∀ j, j < m → readSuccess env j = false := by
    intro m hm j hj
    have hj2 := List.all_eq_true.mp hm j (List.mem_range.mpr hj)
    simpa using hj2
  constructor
  · intro hk hbelow hlt
    unfold applyRead
    rw [applyReadGo_firstSuccess env readFn node (MAX_READ_TRIES + mt) 0 i none
      (Nat.zero_le i) (by omega) (fun j _ hj => hns i hbelow j hj) hk]
    congr 1
    by_cases h10 : MAX_READ_TRIES ≤ i
    · rw [if_pos ⟨Nat.zero_le _, h10⟩, if_pos h10]
    · rw [if_neg (fun hc => h10 hc.2), if_neg h10]
  · intro hall
    unfold applyRead
    rw [applyReadGo_allFail env readFn node (MAX_READ_TRIES + mt) 0 none
      (fun j _ hj => hns _ hall j (by omega))]
    rw [if_pos ⟨Nat.zero_le _, by omega⟩]

/-- Witness for C6 (amended): with every acquisition succeeding, the very
first iteration returns the value read from Combined 7 with no node
enqueued. -/
theorem C6_witness :
    applyRead 1 envAllGood (fun c => c + 1) (⟨0, false⟩ : NodeState Nat) =
      (ReadOutcome.fast 0 8, none) := by
  have h := (C6_applyRead 1 0 envAllGood (fun c => c + 1) ⟨0, false⟩
    (by decide)).1 (by decide) (by decide) (by decide)
  rw [h]
  rfl

/-- When the first examined slot's ticket does not lag the arriving ticket
by min_size, clean stores begin and removes nothing. -/
theorem cleanLoop_stop (arr fuel pos : Nat) (st : CAState) (hf : fuel ≠ 0)
    (hpos : (pos == max_size) = false)
    (h : sub64 arr min_size < (st.heap (st.slots pos)).ticket) :
    cleanLoop arr fuel pos st =
      CAState.mk pos st.caSize st.slots st.heap st.retired := by
  obtain ⟨f, rfl⟩ := Nat.exists_eq_succ_of_ne_zero hf
  simp only [cleanLoop, hpos, Bool.false_eq_true, if_false]
  rw [if_pos h]

/-- When the first examined slot's ticket lags enough, one clean iteration
performs the removal body and continues. -/
theorem cleanLoop_once (arr fuel pos : Nat) (st : CAState) (hf : fuel ≠ 0)
    (hpos : (pos == max_size) = false)
    (h : ¬ sub64 arr min_size < (st.heap (st.slots pos)).ticket) :
    cleanLoop arr fuel pos st =
      cleanLoop arr (fuel - 1) (pos + 1) (cleanStep st pos) := by
  obtain ⟨f, rfl⟩ := Nat.exists_eq_succ_of_ne_zero hf
  simp only [cleanLoop, hpos, Bool.false_eq_true, if_false]
  rw [if_neg h]
  norm_num

/-- The clean loop never grows the ring size. -/
theorem cleanLoop_size_le (arr : Nat) :
    ∀ (fuel pos : Nat) (st : CAState),
      (cleanLoop arr fuel pos st).caSize ≤ st.caSize := by
  intro fuel
  induction fuel with
  | zero => intro pos st; exact le_rfl
  | succ f ih =>
    intro pos st
    simp only [cleanLoop]
    by_cases hg : sub64 arr min_size <
        (st.heap (st.slots (if pos == max_size then 0 else pos))).ticket
    · rw [if_pos hg]
    · rw [if_neg hg]
      exact le_trans (ih _ _) (Nat.sub_le _ _)

/-- The clean loop only adds to the retired list. -/
theorem cleanLoop_retired_mono (arr : Nat) :
    ∀ (fuel pos : Nat) (st : CAState) (x : Nat),
      x ∈ st.retired → x ∈ (cleanLoop arr fuel pos st).retired := by
  intro fuel
  induction fuel with
  | zero => intro pos st x hx; exact hx
  | succ f ih =>
    intro pos st x hx
    simp only [cleanLoop]
    by_cases hg : sub64 arr min_size <
        (st.heap (st.slots (if pos == max_size then 0 else pos))).ticket
    · rw [if_pos hg]; exact hx
    · rw [if_neg hg]
      exact ih _ _ x (List.mem_cons_of_mem _ hx)

/-- Every heap entry the clean loop writes is left self-linked; all other
entries are unchanged. -/
theorem cleanLoop_heap_next (arr : Nat) :
    ∀ (fuel pos : Nat) (st : CAState) (q : Nat),
      (cleanLoop arr fuel pos st).heap q = st.heap q ∨
        ((cleanLoop arr fuel pos st).heap q).next = q := by
  intro fuel
  induction fuel with
  | zero => intro pos st q; exact Or.inl rfl
  | succ f ih =>
    intro pos st q
    simp only [cleanLoop]
    by_cases hg : sub64 arr min_size <
        (st.heap (st.slots (if pos == max_size then 0 else pos))).ticket
    · rw [if_pos hg]; exact Or.inl rfl
    · rw [if_neg hg]
      set p1 := if pos == max_size then 0 else pos with hp1
      rcases ih (p1 + 1) (cleanStep st p1) q with h | h
      · rw [h]
        by_cases hq : q = st.slots p1
        · subst hq
          right
          simp [cleanStep]
        · left
          simp [cleanStep, hq]
      · exact Or.inr h

/-- Adds below the capacity on the all-ticket-5000 heap just grow the ring:
size counts the adds, begin stays 0, and the heap is never written. -/
theorem iterAdd_flat (k : Nat) (hk : k ≤ 2000) :
    (iterAdd caInit k).caSize = k ∧ (iterAdd caInit k).caBegin = 0 ∧
      (∀ p, (iterAdd caInit k).heap p = ⟨5000, 0⟩) := by
  induction k with
  | zero => exact ⟨rfl, rfl, fun _ => rfl⟩
  | succ k ih =>
    obtain ⟨hs, hb, hh⟩ := ih (by omega)
    have hk2 : k ≠ max_size := by simp only [max_size]; omega
    refine ⟨?_, ?_, ?_⟩ <;>
      simp [iterAdd, CAState.add, hs, hb, hh, hk2]

/-- Unfolding one add of the iterated-add driver. -/
theorem iterAdd_succ (st : CAState) (k : Nat) :
    iterAdd st (k + 1) = (iterAdd st k).add k := rfl

/-- Size field of an explicitly built ring state. -/
theorem caSize_mk (a b : Nat) (sl : Nat → Nat) (hp : Nat → CANode)
    (r : List Nat) : (CAState.mk a b sl hp r).caSize = b := rfl

/-- An add on a full ring stores the node and grows the size clean left by
one. -/
theorem add_full_caSize (st : CAState) (nid : Nat)
    (hfull : st.caSize = max_size) :
    (st.add nid).caSize = (st.clean nid).caSize + 1 := by
  unfold CAState.add
  rw [if_pos hfull]

/-- Heap field of an explicitly built ring state. -/
theorem heap_mk (a b : Nat) (sl : Nat → Nat) (hp : Nat → CANode)
    (r : List Nat) : (CAState.mk a b sl hp r).heap = hp := rfl

/-- Retired field of an explicitly built ring state. -/
theorem retired_mk (a b : Nat) (sl : Nat → Nat) (hp : Nat → CANode)
    (r : List Nat) : (CAState.mk a b sl hp r).retired = r := rfl

/-- An add on a full ring leaves the heap exactly as clean left it. -/
theorem add_full_heap (st : CAState) (nid : Nat)
    (hfull : st.caSize = max_size) :
    (st.add nid).heap = (st.clean nid).heap := by
  unfold CAState.add
  rw [if_pos hfull]

/-- An add on a full ring leaves the retired list exactly as clean left it. -/
theorem add_full_retired (st : CAState) (nid : Nat)
    (hfull : st.caSize = max_size) :
    (st.add nid).retired = (st.clean nid).retired := by
  unfold CAState.add
  rw [if_pos hfull]

/-- An add on a full ring leaves begin exactly where clean put it. -/
theorem add_full_begin (st : CAState) (nid : Nat)
    (hfull : st.caSize = max_size) :
    (st.add nid).caBegin = (st.clean nid).caBegin := by
  unfold CAState.add
  rw [if_pos hfull]

/-- An add on a non-full ring just increments size. -/
theorem add_notfull_caSize (st : CAState) (nid : Nat)
    (h : ¬ st.caSize = max_size) : (st.add nid).caSize = st.caSize + 1 := by
  unfold CAState.add
  rw [if_neg h]

/-- An add on a non-full ring leaves begin unchanged. -/
theorem add_notfull_begin (st : CAState) (nid : Nat)
    (h : ¬ st.caSize = max_size) : (st.add nid).caBegin = st.caBegin := by
  unfold CAState.add
  rw [if_neg h]

/-- An add on a non-full ring never writes the heap. -/
theorem add_notfull_heap (st : CAState) (nid : Nat)
    (h : ¬ st.caSize = max_size) : (st.add nid).heap = st.heap := by
  unfold CAState.add
  rw [if_neg h]

/-- An add on a non-full ring retires nothing. -/
theorem add_notfull_retired (st : CAState) (nid : Nat)
    (h : ¬ st.caSize = max_size) : (st.add nid).retired = st.retired := by
  unfold CAState.add
  rw [if_neg h]

/-- An add on a non-full ring stores the node at slot (begin + size) %
max_size. -/
theorem add_notfull_slots (st : CAState) (nid : Nat)
    (h : ¬ st.caSize = max_size) :
    (st.add nid).slots = fun p =>
      if p = (st.caBegin + st.caSize) % max_size then nid
      else st.slots p := by
  unfold CAState.add
  rw [if_neg h]

/-- The removal body never changes any node's ticket. -/
theorem cleanStep_ticket (st : CAState) (p q : Nat) :
    ((cleanStep st p).heap q).ticket = (st.heap q).ticket := by
  by_cases hq : q = st.slots p
  · subst hq
    simp [cleanStep]
  · simp [cleanStep, hq]

/-- The clean loop keeps begin strictly below max_size: when it stops it
stores the wrapped position, otherwise it leaves begin untouched. -/
theorem cleanLoop_begin (arr : Nat) :
    ∀ (fuel pos : Nat) (st : CAState), pos ≤ max_size →
      st.caBegin < max_size →
      (cleanLoop arr fuel pos st).caBegin < max_size := by
  intro fuel
  induction fuel with
  | zero => intro pos st _ hb; exact hb
  | succ f ih =>
    intro pos st hpos hb
    have hp1 : (if pos == max_size then 0 else pos) < max_size := by
      by_cases hp : (pos == max_size) = true
      · rw [if_pos hp]
        norm_num [max_size]
      · rw [if_neg hp]
        have hne : pos ≠ max_size := by simpa using hp
        omega
    simp only [cleanLoop]
    by_cases hg : sub64 arr min_size <
        (st.heap (st.slots (if pos == max_size then 0 else pos))).ticket
    · rw [if_pos hg]
      exact hp1
    · rw [if_neg hg]
      exact ih _ _ (by omega) hb

/-- One add keeps the ring within capacity and begin within bounds,
provided that when the ring is full the oldest stored ticket lags the
arriving ticket by at least min_size. -/
theorem add_preserves_inv (st : CAState) (nid : Nat)
    (h1 : st.caSize ≤ max_size) (h2 : st.caBegin < max_size)
    (h3 : st.caSize = max_size →
      ¬ sub64 (st.heap nid).ticket min_size <
          (st.heap (st.slots st.caBegin)).ticket) :
    (st.add nid).caSize ≤ max_size ∧ (st.add nid).caBegin < max_size := by
  by_cases hfull : st.caSize = max_size
  · have hpos : (st.caBegin == max_size) = false := by
      simp only [beq_eq_false_iff_ne]
      omega
    have hclean : st.clean nid =
        cleanLoop (st.heap nid).ticket (st.caSize - 1) (st.caBegin + 1)
          (cleanStep st st.caBegin) := by
      unfold CAState.clean
      exact cleanLoop_once _ st.caSize st.caBegin st
        (by rw [hfull]; simp [max_size]) hpos (h3 hfull)
    have hsize : (st.clean nid).caSize ≤ st.caSize - 1 := by
      rw [hclean]
      exact le_trans (cleanLoop_size_le _ _ _ _) (le_of_eq rfl)
    have haddSize := add_full_caSize st nid hfull
    have hms : 1 ≤ max_size := by simp [max_size]
    constructor
    · omega
    · have hb2 : (st.clean nid).caBegin < max_size := by
        rw [hclean]
        exact cleanLoop_begin _ (st.caSize - 1) (st.caBegin + 1)
          (cleanStep st st.caBegin) (by omega) h2
      rw [add_full_begin st nid hfull]
      exact hb2
  · constructor
    · rw [add_notfull_caSize st nid hfull]
      omega
    · rw [add_notfull_begin st nid hfull]
      exact h2

/-- A whole sequence of adds keeps the ring within capacity and begin
within bounds, provided every add that finds the ring full arrives with a
ticket that the oldest stored ticket lags by min_size. -/
theorem addAll_inv :
    ∀ (ns : List Nat) (st : CAState), st.caSize ≤ max_size →
      st.caBegin < max_size → addSeqOK st ns →
      (addAll st ns).caSize ≤ max_size ∧
        (addAll st ns).caBegin < max_size := by
  intro ns
  induction ns with
  | nil => intro st h1 h2 _; exact ⟨h1, h2⟩
  | cons n ns ih =>
    intro st h1 h2 hseq
    simp only [addSeqOK] at hseq
    have hinv := add_preserves_inv st n h1 h2 hseq.1
    have hstep : addAll st (n :: ns) = addAll (st.add n) ns := rfl
    rw [hstep]
    exact ih (st.add n) hinv.1 hinv.2 hseq.2

/-- Every pair the clean scan records is a genuine removal: the removed
node's ticket lags the arriving ticket by min_size (it was examined before
the first fresh node), the clean loop leaves its next pointer self-linked,
and its former successor is in the retired list the loop produces. -/
theorem cleanRemovedPairs_spec (arr : Nat) :
    ∀ (fuel pos : Nat) (st : CAState) (q s : Nat),
      (q, s) ∈ cleanRemovedPairs arr fuel pos st →
      (¬ sub64 arr min_size < (st.heap q).ticket) ∧
      ((cleanLoop arr fuel pos st).heap q).next = q ∧
      s ∈ (cleanLoop arr fuel pos st).retired := by
  intro fuel
  induction fuel with
  | zero =>
    intro pos st q s hqs
    simp [cleanRemovedPairs] at hqs
  | succ f ih =>
    intro pos st q s hqs
    simp only [cleanRemovedPairs] at hqs
    simp only [cleanLoop]
    by_cases hg : sub64 arr min_size <
        (st.heap (st.slots (if pos == max_size then 0 else pos))).ticket
    · rw [if_pos hg] at hqs
      exact absurd hqs (List.not_mem_nil _)
    · rw [if_neg hg] at hqs
      rw [if_neg hg]
      set p1 := if pos == max_size then 0 else pos
      rcases List.mem_cons.mp hqs with heq | htail
      · have h1 : q = st.slots p1 := congrArg Prod.fst heq
        have h2 : s = (st.heap (st.slots p1)).next := congrArg Prod.snd heq
        subst h1
        subst h2
        refine ⟨hg, ?_, ?_⟩
        · rcases cleanLoop_heap_next arr f (p1 + 1) (cleanStep st p1)
              (st.slots p1) with h | h
          · rw [h]
            simp [cleanStep]
          · exact h
        · exact cleanLoop_retired_mono arr f (p1 + 1) (cleanStep st p1) _
            (List.mem_cons_self _ _)
      · have ihh := ih (p1 + 1) (cleanStep st p1) q s htail
        refine ⟨?_, ihh.2.1, ihh.2.2⟩
        have hticket := cleanStep_ticket st p1 q
        rw [← hticket]
        exact ihh.1

/-- Adds below the capacity starting from an empty ring over any heap H:
size counts the adds, begin stays 0, the heap and retired list are
untouched, and slot p holds node id p. -/
theorem iterAdd_base (H : Nat → CANode) :
    ∀ (k : Nat), k ≤ 2000 →
      (iterAdd (caBase H) k).caSize = k ∧
      (iterAdd (caBase H) k).caBegin = 0 ∧
      (∀ p, (iterAdd (caBase H) k).heap p = H p) ∧
      (iterAdd (caBase H) k).retired = [] ∧
      (∀ p, p < k → (iterAdd (caBase H) k).slots p = p) := by
  intro k
  induction k with
  | zero =>
    intro _
    exact ⟨rfl, rfl, fun _ => rfl, rfl,
      fun p hp => absurd hp (Nat.not_lt_zero p)⟩
  | succ k ih =>
    intro hk
    obtain ⟨hs, hb, hh, hr, hsl⟩ := ih (by omega)
    have hk2 : ¬ (iterAdd (caBase H) k).caSize = max_size := by
      rw [hs]
      simp only [max_size]
      omega
    have hmod : ((iterAdd (caBase H) k).caBegin +
        (iterAdd (caBase H) k).caSize) % max_size = k := by
      rw [hb, hs, Nat.zero_add]
      exact Nat.mod_eq_of_lt (by simp only [max_size]; omega)
    refine ⟨?_, ?_, ?_, ?_, ?_⟩
    · show ((iterAdd (caBase H) k).add k).caSize = k + 1
      rw [add_notfull_caSize _ _ hk2, hs]
    · show ((iterAdd (caBase H) k).add k).caBegin = 0
      rw [add_notfull_begin _ _ hk2]
      exact hb
    · intro p
      show ((iterAdd (caBase H) k).add k).heap p = H p
      rw [add_notfull_heap _ _ hk2]
      exact hh p
    · show ((iterAdd (caBase H) k).add k).retired = []
      rw [add_notfull_retired _ _ hk2]
      exact hr
    · intro p hp
      show ((iterAdd (caBase H) k).add k).slots p = p
      simp only [add_notfull_slots _ _ hk2]
      rw [hmod]
      by_cases hpk : p = k
      · rw [if_pos hpk, hpk]
      · rw [if_neg hpk]
        exact hsl p (by omega)

/-- Claim C8 counterexample, two scenarios. Scenario 1: 2001 adds of nodes
all carrying ticket 5000 — at the 2001st add the ring is full but clean
stops immediately because the oldest ticket does not lag the arriving
ticket by min_size: nothing is removed, the new node is stored anyway, and
the size reaches 2001, exceeding max_size. Scenario 2: the same 2001 adds
over heap2, where node 1 carries the ancient ticket 1 (it lags the
arriving ticket 5500 by far more than min_size) but the oldest node, node
0, carries the fresh ticket 5000: the scan stops at node 0 before ever
examining node 1, so the lagging node 1 is not removed (retired list stays
empty and its heap entry is untouched) — removal covers only the scanned
prefix up to the first fresh node, not every lagging node. -/
theorem C8_counterexample :
    ((iterAdd caInit 2001).caSize = 2001 ∧
      max_size < (iterAdd caInit 2001).caSize) ∧
    ((iterAdd caInit2 2001).caSize = 2001 ∧
      (heap2 1).ticket + min_size ≤ (heap2 2000).ticket ∧
      ¬ sub64 (heap2 2000).ticket min_size < (heap2 1).ticket ∧
      (iterAdd caInit2 2001).retired = [] ∧
      (iterAdd caInit2 2001).heap 1 = heap2 1) := by
  obtain ⟨hs, hb, hh⟩ := iterAdd_flat 2000 le_rfl
  have hclean : (iterAdd caInit 2000).clean 2000 =
      CAState.mk 0 2000 (iterAdd caInit 2000).slots
        (iterAdd caInit 2000).heap (iterAdd caInit 2000).retired := by
    unfold CAState.clean
    rw [hs, hb, hh 2000]
    have hg : sub64 (CANode.ticket ⟨5000, 0⟩) min_size <
        ((iterAdd caInit 2000).heap ((iterAdd caInit 2000).slots 0)).ticket := by
      rw [hh]
      norm_num [sub64, w64, min_size]
    have h0 := cleanLoop_stop (CANode.ticket ⟨5000, 0⟩) 2000 0
      (iterAdd caInit 2000) (by norm_num) (by norm_num [max_size]) hg
    rw [hs] at h0
    exact h0
  have hfin : (iterAdd caInit 2001).caSize = 2001 := by
    have hstep : iterAdd caInit 2001 = (iterAdd caInit 2000).add 2000 := by
      rw [show (2001 : Nat) = 2000 + 1 from rfl]
      exact iterAdd_succ caInit 2000
    have hcond : (iterAdd caInit 2000).caSize = max_size := by rw [hs]; rfl
    rw [hstep, add_full_caSize _ _ hcond, hclean, caSize_mk]
  obtain ⟨hs2, hb2, hh2, hr2, hsl2⟩ := iterAdd_base heap2 2000 le_rfl
  have hca : caBase heap2 = caInit2 := rfl
  rw [hca] at hs2 hb2 hh2 hr2 hsl2
  have hstep2 : iterAdd caInit2 2001 =
      (iterAdd caInit2 2000).add 2000 := by
    rw [show (2001 : Nat) = 2000 + 1 from rfl]
    exact iterAdd_succ caInit2 2000
  have hcond2 : (iterAdd caInit2 2000).caSize = max_size := by
    rw [hs2]; rfl
  have hclean2 : (iterAdd caInit2 2000).clean 2000 =
      CAState.mk 0 2000 (iterAdd caInit2 2000).slots
        (iterAdd caInit2 2000).heap
        (iterAdd caInit2 2000).retired := by
    unfold CAState.clean
    rw [hs2, hb2]
    have hg2 : sub64 ((iterAdd caInit2 2000).heap 2000).ticket
        min_size <
        ((iterAdd caInit2 2000).heap
          ((iterAdd caInit2 2000).slots 0)).ticket := by
      rw [hsl2 0 (by norm_num), hh2 0, hh2 2000]
      decide
    have h0 := cleanLoop_stop
      ((iterAdd caInit2 2000).heap 2000).ticket 2000 0
      (iterAdd caInit2 2000) (by norm_num) (by norm_num [max_size]) hg2
    rw [hs2] at h0
    exact h0
  have hsize2 : (iterAdd caInit2 2001).caSize = 2001 := by
    rw [hstep2, add_full_caSize _ _ hcond2, hclean2, caSize_mk]
  have hret2 : (iterAdd caInit2 2001).retired = [] := by
    rw [hstep2, add_full_retired _ _ hcond2, hclean2, retired_mk]
    exact hr2
  have hheap2 : (iterAdd caInit2 2001).heap 1 = heap2 1 := by
    rw [hstep2, add_full_heap _ _ hcond2, hclean2, heap_mk]
    exact hh2 1
  exact ⟨⟨hfin, by rw [hfin]; norm_num [max_size]⟩,
    hsize2, by decide, by decide, hret2, hheap2⟩

/-- Claim C8 (amended): under the proviso that every add finding the ring
full arrives with a ticket that the oldest stored ticket lags by at least
min_size (1000, via the uint64 comparison of clean), any sequence of adds
keeps the ring size within max_size (2000) and the begin index in bounds.
A single add on a full ring removes nodes from the oldest end while their
tickets lag the arriving ticket: when the oldest node lags, the removed
set is non-empty (it contains the oldest node and its recorded successor);
every removed node recorded by the scan genuinely lags the arriving ticket
by min_size, ends with its next pointer self-linked, and has its former
successor handed to the reclamation registry. The scan stops at the first
node that does not lag: when the oldest node is fresh, a full add removes
nothing — the retired list and the heap are untouched — and the size still
grows by one, past max_size. -/
theorem C8_retire_ring (st : CAState) (nid : Nat) (ns : List Nat)
    (h1 : st.caSize ≤ max_size) (h2 : st.caBegin < max_size)
    (hseq : addSeqOK st ns) :
    (addAll st ns).caSize ≤ max_size ∧
    (addAll st ns).caBegin < max_size ∧
    ((st.caSize = max_size →
        ¬ sub64 (st.heap nid).ticket min_size <
          (st.heap (st.slots st.caBegin)).ticket) →
      (st.add nid).caSize ≤ max_size) ∧
    (st.caSize = max_size →
      ¬ sub64 (st.heap nid).ticket min_size <
          (st.heap (st.slots st.caBegin)).ticket →
      (st.slots st.caBegin, (st.heap (st.slots st.caBegin)).next) ∈
        cleanRemovedPairs (st.heap nid).ticket st.caSize st.caBegin st) ∧
    (∀ q s, (q, s) ∈
        cleanRemovedPairs (st.heap nid).ticket st.caSize st.caBegin st →
      st.caSize = max_size →
      (¬ sub64 (st.heap nid).ticket min_size < (st.heap q).ticket) ∧
      ((st.add nid).heap q).next = q ∧
      s ∈ (st.add nid).retired) ∧
    (st.caSize = max_size →
      sub64 (st.heap nid).ticket min_size <
          (st.heap (st.slots st.caBegin)).ticket →
      (st.add nid).retired = st.retired ∧
      (∀ p, (st.add nid).heap p = st.heap p) ∧
      (st.add nid).caSize = st.caSize + 1) := by
  obtain ⟨hA1, hA2⟩ := addAll_inv ns st h1 h2 hseq
  refine ⟨hA1, hA2, ?_, ?_, ?_, ?_⟩
  · intro h3
    exact (add_preserves_inv st nid h1 h2 h3).1
  · intro hfull hlag
    have hp : (st.caBegin == max_size) = false := by
      simp only [beq_eq_false_iff_ne]
      omega
    obtain ⟨f, hf⟩ : ∃ f, st.caSize = f + 1 := by
      refine ⟨st.caSize - 1, ?_⟩
      have hone : 1 ≤ st.caSize := by rw [hfull]; norm_num [max_size]
      omega
    rw [hf]
    simp only [cleanRemovedPairs, hp, Bool.false_eq_true, if_false]
    rw [if_neg hlag]
    exact List.mem_cons_self _ _
  · intro q s hqs hfull
    have hspec := cleanRemovedPairs_spec (st.heap nid).ticket st.caSize
      st.caBegin st q s hqs
    refine ⟨hspec.1, ?_, ?_⟩
    · rw [add_full_heap st nid hfull]
      exact hspec.2.1
    · rw [add_full_retired st nid hfull]
      exact hspec.2.2
  · intro hfull hfresh
    have hp : (st.caBegin == max_size) = false := by
      simp only [beq_eq_false_iff_ne]
      omega
    have hstop : st.clean nid =
        CAState.mk st.caBegin st.caSize st.slots st.heap st.retired := by
      unfold CAState.clean
      exact cleanLoop_stop _ st.caSize st.caBegin st
        (by rw [hfull]; norm_num [max_size]) hp hfresh
    refine ⟨?_, ?_, ?_⟩
    · rw [add_full_retired st nid hfull, hstop, retired_mk]
    · intro p
      rw [add_full_heap st nid hfull, hstop, heap_mk]
    · rw [add_full_caSize st nid hfull, hstop, caSize_mk]

/-- Witness for C8 (amended), at a full ring: caFull holds 2000 nodes of
ticket 100 and node 5000 arrives with ticket 9000, so every stored ticket
lags by min_size. The sequence bound holds for the one-add sequence
[5000], the single full add stays within max_size, and the oldest node
together with its successor is recorded as removed by the scan. -/
theorem C8_witness :
    (addAll caFull [5000]).caSize ≤ max_size ∧
    (addAll caFull [5000]).caBegin < max_size ∧
    (caFull.add 5000).caSize ≤ max_size ∧
    (caFull.slots caFull.caBegin,
        (caFull.heap (caFull.slots caFull.caBegin)).next) ∈
      cleanRemovedPairs (caFull.heap 5000).ticket caFull.caSize
        caFull.caBegin caFull := by
  have h := C8_retire_ring caFull 5000 [5000] (by decide) (by decide)
    ⟨by decide, trivial⟩
  exact ⟨h.1, h.2.1, h.2.2.1 (by decide), h.2.2.2.1 (by decide) (by decide)⟩

/-- Normal form of the constructor's pool for participant count n >= 2: slot
0 carries the caller's instance with its lock placed in READER-DRAIN by
setReadLock, slots 1-3 carry fresh copies, and the remaining 2n - 4 slots
are default-constructed. -/
theorem mkCX_combs_ge2 (n : Nat) (h : 2 ≤ n) :
    (mkCX n).combs =
      (⟨some sentinelId, some ObjSrc.inst,
        ⟨⟨List.replicate MAX_THREADS NOT_READING⟩, ⟨0, LState.RLOCK⟩⟩⟩ :
          CombinedModel) ::
      combR ObjSrc.copyOf :: combR ObjSrc.copyOf :: combR ObjSrc.copyOf ::
      List.replicate (2 * n - 4) emptyComb := by
  obtain ⟨m, hm⟩ : ∃ m, 2 * n = 4 + m := ⟨2 * n - 4, by omega⟩
  rw [show 2 * n - 4 = m from by omega]
  simp only [mkCX, h, if_true]
  rw [hm, List.replicate_add]
  rfl

/-- The sentinel refcnt stored by the constructor for n >= 2. -/
theorem mkCX_refcnt_ge2 (n : Nat) (h : 2 ≤ n) : (mkCX n).sentinelRefcnt = 4 := by
  simp only [mkCX, h, if_true]

/-- The constructor always publishes slot 0 as the current Combined. -/
theorem mkCX_curComb (n : Nat) : (mkCX n).curComb = some 0 := by
  simp only [mkCX]

/-- Claim C10: after construction with participant count n >= 2, exactly the
four pool slots 0..3 hold replicas (slot 0 the caller's instance, slots 1..3
fresh deep copies), every populated slot's head is the sentinel, the
sentinel's refcnt is 4 and equals the number of Combined heads pointing at
the sentinel; curComb points to slot 0, whose lock was placed in
READER-DRAIN by setReadLock, so immediately after construction an
uninterfered sharedTryLock on the current Combined succeeds while
exclusiveTryLock on it fails.  With n = 1 only slots 0..1 are populated and
the refcnt is 2, again equal to the number of heads on the sentinel. -/
theorem C10_constructor (n tid : Nat) :
    (2 ≤ n →
      ((mkCX n).combs.map (fun c => c.obj) =
        some ObjSrc.inst :: some ObjSrc.copyOf :: some ObjSrc.copyOf ::
          some ObjSrc.copyOf :: List.replicate (2 * n - 4) none) ∧
      ((mkCX n).combs.map (fun c => c.head) =
        some sentinelId :: some sentinelId :: some sentinelId ::
          some sentinelId :: List.replicate (2 * n - 4) none) ∧
      (mkCX n).sentinelRefcnt = 4 ∧
      (mkCX n).sentinelRefcnt =
        ((mkCX n).combs.countP (fun c => c.head == some sentinelId) : Int) ∧
      (mkCX n).curComb = some 0 ∧
      ((mkCX n).combs.getD 0 emptyComb).lock.wstate = ⟨0, LState.RLOCK⟩ ∧
      (sharedTryLockRun ((mkCX n).combs.getD 0 emptyComb).lock.wstate
        (noIntObs ((mkCX n).combs.getD 0 emptyComb).lock)).ok = true ∧
      (exclusiveTryLock ((mkCX n).combs.getD 0 emptyComb).lock tid).ok = false) ∧
    (n = 1 →
      ((mkCX n).combs.map (fun c => c.obj) =
        [some ObjSrc.inst, some ObjSrc.copyOf]) ∧
      ((mkCX n).combs.map (fun c => c.head) = [some sentinelId, some sentinelId]) ∧
      (mkCX n).sentinelRefcnt = 2 ∧
      (mkCX n).sentinelRefcnt =
        ((mkCX n).combs.countP (fun c => c.head == some sentinelId) : Int)) := by
  constructor
  · intro h
    have hc := mkCX_combs_ge2 n h
    have hrep0 : (List.replicate (2 * n - 4) emptyComb).countP
        (fun c => c.head == some sentinelId) = 0 := by
      rw [List.countP_eq_zero]
      intro a ha
      rw [List.eq_of_mem_replicate ha]
      decide
    refine ⟨?_, ?_, mkCX_refcnt_ge2 n h, ?_, mkCX_curComb n, ?_, ?_, ?_⟩
    · rw [hc]
      simp [combR, emptyComb, List.map_replicate]
    · rw [hc]
      simp [combR, emptyComb, List.map_replicate]
    · rw [mkCX_refcnt_ge2 n h, hc]
      simp [List.countP_cons, hrep0, combR]
    · rw [hc]; rfl
    · rw [hc]; rfl
    · rw [hc]
      simp [exclusiveTryLock]
  · intro h1
    subst h1
    refine ⟨by decide, by decide, by decide, by decide⟩

/-- Witness for C10: at n = 2 the refcnt is 4, curComb is slot 0, and
exclusiveTryLock on the freshly published current Combined fails. -/
theorem C10_witness :
    (mkCX 2).sentinelRefcnt = 4 ∧ (mkCX 2).curComb = some 0 ∧
      (exclusiveTryLock ((mkCX 2).combs.getD 0 emptyComb).lock 0).ok = false :=
  ⟨((C10_constructor 2 0).1 (by norm_num)).2.2.1,
   ((C10_constructor 2 0).1 (by norm_num)).2.2.2.2.1,
   ((C10_constructor 2 0).1 (by norm_num)).2.2.2.2.2.2.2⟩
